import Mathlib

/-!
Shallow embedding of the CSV codec (`src/file/csv.ts`) and the card number
engine (`src/generators/card.ts`) of the playwright-utils repository,
together with proofs settling the frozen claims about them.

Strings are modelled as Lean `String`/`List Char`.  The JavaScript
`String.prototype.trim` is modelled by `jsTrim` over the ECMAScript
whitespace set.  File I/O is abstracted: `validateCSV` takes the outcome of
the file read as an `Except` value (the only throwing operation inside its
`try` block).  Randomness is modelled by an oracle `rand : Nat → Nat`;
`randomInt lo hi` with oracle value `r` yields `lo + r % (hi - lo + 1)`, so
quantifying over the oracle covers every outcome of the random source.
-/

namespace PlaywrightUtils

/-- ECMAScript WhiteSpace ∪ LineTerminator, the set trimmed by
`String.prototype.trim`. -/
def isJsWhitespace (c : Char) : Bool :=
  c = ' ' || c = '\t' || c = '\n' || c = '\r' ||
  c.toNat = 11 || c.toNat = 12 || c.toNat = 160 || c.toNat = 0x1680 ||
  (0x2000 ≤ c.toNat && c.toNat ≤ 0x200A) ||
  c.toNat = 0x2028 || c.toNat = 0x2029 || c.toNat = 0x202F ||
  c.toNat = 0x205F || c.toNat = 0x3000 || c.toNat = 0xFEFF

/-- JavaScript `s.trim()` on a character list. -/
def jsTrim (l : List Char) : List Char :=
  ((l.dropWhile isJsWhitespace).reverse.dropWhile isJsWhitespace).reverse

/-- JavaScript `content.split(/\r?\n/)`: a `\n`, optionally preceded by
`\r`, separates lines; a lone `\r` is ordinary content. -/
def splitLinesGo : List Char → List Char → List (List Char)
  | [], current => [current]
  | c :: rest, current =>
    if c = '\n' then current :: splitLinesGo rest []
    else if c = '\r' then
      match rest with
      | c2 :: rest2 =>
        if c2 = '\n' then current :: splitLinesGo rest2 []
        else splitLinesGo (c2 :: rest2) (current ++ [c])
      | [] => [current ++ [c]]
    else splitLinesGo rest (current ++ [c])

/-- JavaScript `Array.prototype.join` with separator `sep`. -/
def joinSep (sep : List Char) : List (List Char) → List Char
  | [] => []
  | [x] => x
  | x :: y :: rest => x ++ sep ++ joinSep sep (y :: rest)

/-- Options of the CSV codec (`CSVOptions` in `src/types.ts`); the
`encoding` field only concerns file I/O and is omitted. -/
structure CSVOptions where
  delimiter : Char := ','
  hasHeaders : Bool := true
  skipEmptyLines : Bool := true
  deriving Repr, DecidableEq

def defaultCSVOptions : CSVOptions := {}

/-- The single-pass quoted-field state machine of `parseLine` in
`src/file/csv.ts`: `inQuotes` is the state, `current` the field
accumulator; fields are pushed trimmed, a doubled quote inside quotes is a
literal quote, an unterminated quote is tolerated. -/
def parseLineGo (delimiter : Char) : List Char → Bool → List Char → List String
  | [], _, current => [String.mk (jsTrim current)]
  | c :: rest, true, current =>
    if c = '"' then
      match rest with
      | c2 :: rest2 =>
        if c2 = '"' then parseLineGo delimiter rest2 true (current ++ ['"'])
        else parseLineGo delimiter (c2 :: rest2) false current
      | [] => [String.mk (jsTrim current)]
    else parseLineGo delimiter rest true (current ++ [c])
  | c :: rest, false, current =>
    if c = '"' then parseLineGo delimiter rest true current
    else if c = delimiter then
      String.mk (jsTrim current) :: parseLineGo delimiter rest false []
    else parseLineGo delimiter rest false (current ++ [c])

/-- `parseLine(line, delimiter)` of `src/file/csv.ts`. -/
def parseLine (line : String) (delimiter : Char) : List String :=
  parseLineGo delimiter line.toList false []

/-- The body of `headers.forEach((header, index) => row[header] =
values[index] || '')` in `parseCSV`: the `index`-th value of `values`, or
the empty string when absent (`undefined`) or empty (both falsy). -/
def mkRow : List String → List String → List (String × String)
  | [], _ => []
  | h :: hs, vs => (h, vs.headD "") :: mkRow hs vs.tail

/-- The line list of `parseCSV` after splitting and the `skipEmptyLines`
filter. -/
def csvFilteredLines (content : String) (opts : CSVOptions) : List (List Char) :=
  let lines := splitLinesGo content.toList []
  if opts.skipEmptyLines then lines.filter (fun l => !(jsTrim l).isEmpty) else lines

/-- The header list `parseCSV` uses: the parsed first line when
`hasHeaders`, otherwise synthetic names `column_i`. -/
def csvHeaders (content : String) (opts : CSVOptions) : List String :=
  match csvFilteredLines content opts with
  | [] => []
  | first :: _ =>
    if opts.hasHeaders then parseLineGo opts.delimiter first false []
    else (parseLineGo opts.delimiter first false []).enum.map
      (fun p => "column_" ++ toString p.1)

/-- The data lines of `parseCSV` (`dataStartIndex` onward). -/
def csvDataLines (content : String) (opts : CSVOptions) : List (List Char) :=
  match csvFilteredLines content opts with
  | [] => []
  | first :: rest => if opts.hasHeaders then rest else first :: rest

/-- `parseCSV(content, options)` of `src/file/csv.ts`; a row is the
key-ordered association list of the JavaScript record. -/
def parseCSV (content : String) (opts : CSVOptions) : List (List (String × String)) :=
  (csvDataLines content opts).map
    (fun l => mkRow (csvHeaders content opts) (parseLineGo opts.delimiter l false []))

/-- The quote-doubling replacement (every `"` becomes `""`) inside `escapeField`. -/
def doubleQuotes : List Char → List Char
  | [] => []
  | c :: rest => if c = '"' then '"' :: '"' :: doubleQuotes rest else c :: doubleQuotes rest

/-- `escapeField(value, delimiter)` of `src/file/csv.ts`. -/
def escapeField (value : List Char) (delimiter : Char) : List Char :=
  let needsQuoting := value.contains delimiter || value.contains '"' ||
    value.contains '\n' || value.contains '\r'
  if needsQuoting then '"' :: (doubleQuotes value ++ ['"']) else value

/-- `stringifyCSV(data, options)` of `src/file/csv.ts`: headers are the
keys of the first row, later rows are projected onto them (`row[header]`,
missing keys becoming the empty string), lines join with `\n`. -/
def stringifyCSV (data : List (List (String × String))) (opts : CSVOptions) : String :=
  match data with
  | [] => ""
  | firstRow :: _ =>
    let headers := firstRow.map Prod.fst
    let headerLines :=
      if opts.hasHeaders then
        [joinSep [opts.delimiter] (headers.map (fun h => escapeField h.toList opts.delimiter))]
      else []
    let rowLines := data.map (fun row =>
      joinSep [opts.delimiter]
        (headers.map (fun h => escapeField ((row.lookup h).getD "").toList opts.delimiter)))
    String.mk (joinSep ['\n'] (headerLines ++ rowLines))

/-- `CSVValidationOptions` of `src/types.ts` (parse options plus schema
expectations). -/
structure CSVValidationOptions where
  delimiter : Char := ','
  hasHeaders : Bool := true
  skipEmptyLines : Bool := true
  expectedRowCount : Option Nat := none
  expectedColumns : Option (List String) := none
  requiredFields : Option (List String) := none
  minRowCount : Option Nat := none
  maxRowCount : Option Nat := none

def CSVValidationOptions.toCSVOptions (o : CSVValidationOptions) : CSVOptions :=
  { delimiter := o.delimiter, hasHeaders := o.hasHeaders,
    skipEmptyLines := o.skipEmptyLines }

/-- `CSVValidationResult` of `src/types.ts`. -/
structure CSVValidationResult where
  isValid : Bool
  errors : List String
  rowCount : Nat
  columns : List String
  deriving Repr, DecidableEq

/-- The required-field check of `validateCSV`: for each row `i` (in
order) and each required field `f` (in order), an error when
`!row[f] || row[f].trim() === ''` — i.e. the value is absent, empty, or
whitespace-only. -/
def requiredFieldErrors (fields : List String) (data : List (List (String × String))) : List String :=
  (data.enum.map (fun p =>
    (fields.filter (fun f => (jsTrim ((p.2.lookup f).getD "").toList).isEmpty)).map
      (fun f => "Row " ++ toString (p.1 + 1) ++ ": Missing required field \x27" ++ f ++ "\x27"))).flatten

/-- The observed column list: keys of the first parsed row. -/
def csvColumnsOf (data : List (List (String × String))) : List String :=
  match data with | [] => [] | r :: _ => r.map Prod.fst

/-- The expected-columns check of `validateCSV`. -/
def missingColumnErrors (o : CSVValidationOptions) (columns : List String) : List String :=
  match o.expectedColumns with
  | some cols =>
    let missing := cols.filter (fun c => !columns.contains c)
    if !missing.isEmpty then
      ["Missing columns: " ++ String.intercalate ", " missing]
    else []
  | none => []

/-- The exact row-count check of `validateCSV`. -/
def exactRowErrors (o : CSVValidationOptions) (rows : Nat) : List String :=
  match o.expectedRowCount with
  | some n =>
    if rows ≠ n then ["Expected " ++ toString n ++ " rows, got " ++ toString rows]
    else []
  | none => []

/-- The minimum row-count check of `validateCSV`. -/
def minRowErrors (o : CSVValidationOptions) (rows : Nat) : List String :=
  match o.minRowCount with
  | some n =>
    if rows < n then
      ["Expected at least " ++ toString n ++ " rows, got " ++ toString rows]
    else []
  | none => []

/-- The maximum row-count check of `validateCSV`. -/
def maxRowErrors (o : CSVValidationOptions) (rows : Nat) : List String :=
  match o.maxRowCount with
  | some n =>
    if rows > n then
      ["Expected at most " ++ toString n ++ " rows, got " ++ toString rows]
    else []
  | none => []

/-- `validateCSV(filePath, options)` of `src/file/csv.ts`.  The file read
(`readCSV`, the only statement in the `try` block that can throw) is
abstracted as an `Except` argument: `.error msg` is a rejected read whose
caught exception has message `msg`, `.ok content` a successful read of
`content`, which `readCSV` then feeds to `parseCSV`.  The error list is
built in the push order of the source: expected columns, exact, min, max row
count, then required fields. -/
def validateCSV (readResult : Except String String) (o : CSVValidationOptions) :
    CSVValidationResult :=
  match readResult with
  | .error msg =>
    { isValid := false, errors := ["Failed to read CSV: " ++ msg],
      rowCount := 0, columns := [] }
  | .ok content =>
    let data := parseCSV content o.toCSVOptions
    let columns := csvColumnsOf data
    let reqErrors := match o.requiredFields with
      | some fields => requiredFieldErrors fields data
      | none => []
    let errors := missingColumnErrors o columns ++ exactRowErrors o data.length ++
      minRowErrors o data.length ++ maxRowErrors o data.length ++ reqErrors
    { isValid := errors.length == 0, errors := errors,
      rowCount := data.length, columns := columns }

/-! ### Card number engine (`src/generators/card.ts`) -/

/-- `CARD_PREFIXES` table (IINs/BINs), in declaration order. -/
def CARD_PREFIXES : List (String × List String) :=
  [("visa", ["4"]),
   ("mastercard", ["51", "52", "53", "54", "55", "2221", "2720"]),
   ("amex", ["34", "37"]),
   ("discover", ["6011", "644", "645", "646", "647", "648", "649", "65"])]

/-- `CARD_LENGTHS` table. -/
def CARD_LENGTHS : List (String × Nat) :=
  [("visa", 16), ("mastercard", 16), ("amex", 15), ("discover", 16)]

/-- `CVC_LENGTHS` table. -/
def CVC_LENGTHS : List (String × Nat) :=
  [("visa", 3), ("mastercard", 3), ("amex", 4), ("discover", 3)]

/-- `randomInt(lo, hi)` under the oracle value `r`: uniform in
`[lo, hi]`, every outcome reached as `r` ranges over `Nat`. -/
def randomIntM (lo hi r : Nat) : Nat := lo + r % (hi - lo + 1)

/-- JavaScript `parseInt(c, 10)` on a single character: the value of a
decimal digit, or `none` for NaN. -/
def parseIntDigit (c : Char) : Option Nat :=
  if c.isDigit then some (c.toNat - 48) else none

/-- The right-to-left summation loop of `luhnCheck`: the flag `isEven`
starts `false` at the rightmost digit and toggles; a doubled value above 9
has 9 subtracted.  The list argument is the digit string already reversed;
`none` models the NaN produced by `parseInt` on a non-digit, which
poisons the whole sum. -/
def luhnAux : List Char → Bool → Option Nat
  | [], _ => some 0
  | c :: rest, isEven =>
    match parseIntDigit c, luhnAux rest (!isEven) with
    | some d, some s =>
      some ((if isEven then (if d * 2 > 9 then d * 2 - 9 else d * 2) else d) + s)
    | _, _ => none

/-- `luhnCheck(digits)` of `src/generators/card.ts` (`NaN % 10 === 0` is
false, hence the `none` branch). -/
def luhnCheck (digits : List Char) : Bool :=
  match luhnAux digits.reverse false with
  | some sum => sum % 10 = 0
  | none => false

/-- The non-digit stripping step `number.replace` applied first by every card helper. -/
def stripNonDigits (s : String) : List Char := s.toList.filter Char.isDigit

/-- `isValidCardNumber(number)` of `src/generators/card.ts`. -/
def isValidCardNumber (number : String) : Bool :=
  let digits := stripNonDigits number
  if digits.length < 13 || digits.length > 19 then false else luhnCheck digits

/-- The character of a decimal digit (`digit.toString()` for `digit ≤ 9`). -/
def digitToChar (d : Nat) : Char := Char.ofNat (48 + d)

/-- `calculateLuhnCheckDigit(partialNumber)`: try 0–9 ascending, return
the first digit whose appending passes `luhnCheck`; defensively `'0'` if
none does. -/
def calculateLuhnCheckDigit (partialNumber : List Char) : List Char :=
  match (List.range 10).find? (fun d => luhnCheck (partialNumber ++ [digitToChar d])) with
  | some d => [digitToChar d]
  | none => ['0']

/-- The middle random-digit loop of `generateCardNumber`; oracle indices
start at 1 (index 0 picked the prefix). -/
def randomMiddleDigits (rand : Nat → Nat) (n : Nat) : List Char :=
  (List.range n).map (fun i => digitToChar (randomIntM 0 9 (rand (i + 1))))

/-- The body of `generateCardNumber` once the prefix list and total length
are resolved: `randomElement(prefixes)` is `prefixes[randomInt(0, len-1)]`. -/
def genNumberCore (prefixes : List String) (length : Nat) (valid : Bool)
    (rand : Nat → Nat) : String :=
  let pre := (prefixes.getD (randomIntM 0 (prefixes.length - 1) (rand 0)) "").toList
  let remainingLength := length - pre.length - 1
  let number := pre ++ randomMiddleDigits rand remainingLength
  if valid then String.mk (number ++ calculateLuhnCheckDigit number)
  else String.mk (number ++ [digitToChar (randomIntM 0 9 (rand (remainingLength + 1)))])

/-- `generateCardNumber(options)` of `src/generators/card.ts`; `type` is
the already-destructured type string (default `"visa"`), unknown types
fall back to the visa prefixes (`CARD_PREFIXES[type]` defaulted to the
visa entry) and length 16. -/
def generateCardNumber (type : String) (valid : Bool) (rand : Nat → Nat) : String :=
  let prefixes := (CARD_PREFIXES.lookup type).getD ((CARD_PREFIXES.lookup "visa").getD [])
  let length := (CARD_LENGTHS.lookup type).getD 16
  genNumberCore prefixes length valid rand

/-- `generateCVC(length)` of `src/generators/card.ts`. -/
def generateCVC (length : Nat) (rand : Nat → Nat) : String :=
  String.mk ((List.range length).map (fun i => digitToChar (randomIntM 0 9 (rand i))))

/-- `generateExpiry(yearsAhead)`; the current year (from `new Date()`) is
an explicit argument. -/
def generateExpiry (yearsAhead nowYear : Nat) (rand : Nat → Nat) : String :=
  let futureYear := nowYear + randomIntM 1 yearsAhead (rand 0)
  let month := randomIntM 1 12 (rand 1)
  let mm := (if month < 10 then "0" else "") ++ toString month
  let yy := (if futureYear % 100 < 10 then "0" else "") ++ toString (futureYear % 100)
  mm ++ "/" ++ yy

structure CardInfo where
  number : String
  expiry : String
  cvc : String
  type : String
  deriving Repr, DecidableEq

/-- `generateCard(options)` of `src/generators/card.ts`: the type field
defaulted via `||` (so `none` and the falsy `""` both fall back) chooses the
reported type and the CVC length, while `generateCardNumber` receives the
destructured type (default only for an absent field). -/
def generateCard (type? : Option String) (valid : Bool)
    (randNum randExp randCvc : Nat → Nat) (nowYear : Nat) : CardInfo :=
  let type := match type? with
    | none => "visa"
    | some t => if t = "" then "visa" else t
  let cvcLength := (CVC_LENGTHS.lookup type).getD 3
  { number := generateCardNumber (type?.getD "visa") valid randNum
    expiry := generateExpiry 3 nowYear randExp
    cvc := generateCVC cvcLength randCvc
    type := type }

/-- `getCardType(number)` of `src/generators/card.ts`: first table entry
(declaration order) one of whose prefixes starts the digit string. -/
def getCardType (number : String) : Option String :=
  let digits := stripNonDigits number
  (CARD_PREFIXES.find? (fun e => e.2.any (fun p => p.toList.isPrefixOf digits))).map Prod.fst

/-- The default 4-digit grouping replace of `formatCardNumber` (pattern
`(\d{4})(?=\d)`, global) on an all-digit string: a space after every complete 4-digit group that is
followed by at least one more digit. -/
def group4 : List Char → List Char
  | a :: b :: c :: d :: rest =>
    if rest.isEmpty then [a, b, c, d] else a :: b :: c :: d :: ' ' :: group4 rest
  | l => l

/-- The Amex grouping replace of `formatCardNumber` (one match of 4-6-5
digit groups) on an all-digit string: the first (leftmost) 15 digits split 4-6-5, any
remainder untouched; no match (fewer than 15 digits) leaves the string
unchanged. -/
def formatAmex (digits : List Char) : List Char :=
  if digits.length < 15 then digits
  else digits.take 4 ++ [' '] ++ (digits.drop 4).take 6 ++ [' '] ++
    (digits.drop 10).take 5 ++ digits.drop 15

/-- `formatCardNumber(number, type?)` of `src/generators/card.ts`;
the chained `||` defaulting of the type makes `none` and `""` fall
through. -/
def formatCardNumber (number : String) (type? : Option String) : String :=
  let digits := stripNonDigits number
  let cardType := match type? with
    | some t => if t = "" then (getCardType (String.mk digits)).getD "visa" else t
    | none => (getCardType (String.mk digits)).getD "visa"
  if cardType = "amex" then String.mk (formatAmex digits)
  else String.mk (jsTrim (group4 digits))

/-- `maskCardNumber(number, visibleDigits)` of `src/generators/card.ts`.
`'*'.repeat(digits.length - visibleDigits)` throws a `RangeError` when the
count is negative, modelled as `none`; `digits.slice(-visibleDigits)` is
the whole string when `visibleDigits` is 0, else the last `visibleDigits`
characters. -/
def maskCardNumber (number : String) (visibleDigits : Nat) : Option String :=
  let digits := stripNonDigits number
  if digits.length < visibleDigits then none
  else
    let masked := List.replicate (digits.length - visibleDigits) '*'
    let visible := if visibleDigits = 0 then digits
      else digits.drop (digits.length - visibleDigits)
    some (formatCardNumber (String.mk (masked ++ visible)) none)

/-! ### Luhn lemmas -/

/-- Spec-side doubling rule: the digit at 0-based position `i` from the
right is doubled when `i` is odd, with 9 subtracted above 9. -/
def luhnDouble (i d : Nat) : Nat :=
  if i % 2 = 1 then (if d * 2 > 9 then d * 2 - 9 else d * 2) else d

/-- Spec-side Luhn sum: positions counted from the rightmost digit. -/
def luhnSpecSum (digits : List Nat) : Nat :=
  (digits.reverse.enum.map (fun p => luhnDouble p.1 p.2)).sum

/-- The Luhn sum over a (reversed) digit-value list with a starting
parity flag; mirrors the toggling of `isEven` in `luhnCheck`. -/
def luhnSumFrom : Bool → List Nat → Nat
  | _, [] => 0
  | b, d :: rest =>
    (if b then (if d * 2 > 9 then d * 2 - 9 else d * 2) else d) + luhnSumFrom (!b) rest

theorem parseIntDigit_of_isDigit {c : Char} (h : c.isDigit = true) :
    parseIntDigit c = some (c.toNat - 48) := by
  simp [parseIntDigit, h]

theorem luhnAux_digits {l : List Char} (h : ∀ c ∈ l, c.isDigit = true) (b : Bool) :
    luhnAux l b = some (luhnSumFrom b (l.map (fun c => c.toNat - 48))) := by
  induction l generalizing b with
  | nil => simp [luhnAux, luhnSumFrom]
  | cons c rest ih =>
    have hc : c.isDigit = true := h c (List.mem_cons_self ..)
    have hrest : ∀ x ∈ rest, x.isDigit = true := fun x hx => h x (List.mem_cons_of_mem _ hx)
    simp [luhnAux, parseIntDigit_of_isDigit hc, ih hrest, luhnSumFrom]

theorem decide_succ_mod_two (k : Nat) :
    decide ((k + 1) % 2 = 1) = !decide (k % 2 = 1) := by
  rcases Nat.mod_two_eq_zero_or_one k with h | h
  · have h1 : (k + 1) % 2 = 1 := by omega
    simp [h, h1]
  · have h1 : (k + 1) % 2 = 0 := by omega
    simp [h, h1]

theorem luhnSumFrom_enumFrom (l : List Nat) (k : Nat) :
    ((l.enumFrom k).map (fun p => luhnDouble p.1 p.2)).sum =
      luhnSumFrom (decide (k % 2 = 1)) l := by
  induction l generalizing k with
  | nil => simp [luhnSumFrom]
  | cons d rest ih =>
    rw [List.enumFrom_cons, List.map_cons, List.sum_cons, ih (k + 1), decide_succ_mod_two]
    by_cases h : k % 2 = 1 <;> simp [h, luhnSumFrom, luhnDouble]

/-- `luhnCheck` on an all-digit string computes the spec-side Luhn sum. -/
theorem luhnCheck_digits {l : List Char} (h : ∀ c ∈ l, c.isDigit = true) :
    luhnCheck l = decide (luhnSpecSum (l.map (fun c => c.toNat - 48)) % 10 = 0) := by
  have hrev : ∀ c ∈ l.reverse, c.isDigit = true := by
    intro c hc; exact h c (List.mem_reverse.mp hc)
  have hspec : luhnSpecSum (l.map (fun c => c.toNat - 48)) =
      luhnSumFrom false (l.reverse.map (fun c => c.toNat - 48)) := by
    rw [luhnSpecSum, List.enum, luhnSumFrom_enumFrom]
    simp [List.map_reverse]
  simp [luhnCheck, luhnAux_digits hrev false, hspec]

theorem digitToChar_isDigit {d : Nat} (h : d < 10) : (digitToChar d).isDigit = true := by
  interval_cases d <;> decide

theorem digitToChar_toNat {d : Nat} (h : d < 10) : (digitToChar d).toNat = 48 + d := by
  interval_cases d <;> decide

/-- Appending the digit `d` to an all-digit string and running the Luhn
check: the result passes exactly when `d` completes the shifted sum of
the prefix to a multiple of 10. -/
theorem luhnCheck_append_digit {l : List Char} (h : ∀ c ∈ l, c.isDigit = true)
    {d : Nat} (hd : d < 10) :
    luhnCheck (l ++ [digitToChar d]) =
      decide ((d + luhnSumFrom true (l.reverse.map (fun c => c.toNat - 48))) % 10 = 0) := by
  have hrev : (l ++ [digitToChar d]).reverse = digitToChar d :: l.reverse := by simp
  have hrevdig : ∀ c ∈ l.reverse, c.isDigit = true := fun c hc => h c (List.mem_reverse.mp hc)
  rw [luhnCheck, hrev]
  simp [luhnAux, parseIntDigit_of_isDigit (digitToChar_isDigit hd),
    luhnAux_digits hrevdig, digitToChar_toNat hd, luhnCheck]

theorem stripNonDigits_all_digit (s : String) :
    ∀ c ∈ stripNonDigits s, c.isDigit = true := by
  intro c hc
  exact (List.mem_filter.mp hc).2

/-- C3: `isValidCardNumber` strips non-digits, rejects digit counts
outside [13, 19] (in particular the empty string), and otherwise returns
true exactly when the Luhn sum — digits traversed right to left, doubling
at odd 0-based positions from the right, subtracting 9 above 9 — is
divisible by 10; `"4111111111111111"` passes while
`"4111111111111112"`, `"123"` and `""` fail. -/
theorem isValidCardNumber_spec :
    (∀ s : String,
      isValidCardNumber s = true ↔
        (13 ≤ (stripNonDigits s).length ∧ (stripNonDigits s).length ≤ 19 ∧
          luhnSpecSum ((stripNonDigits s).map (fun c => c.toNat - 48)) % 10 = 0)) ∧
    isValidCardNumber "4111111111111111" = true ∧
    isValidCardNumber "4111111111111112" = false ∧
    isValidCardNumber "123" = false ∧
    isValidCardNumber "" = false := by
  refine ⟨fun s => ?_, by decide, by decide, by decide, by decide⟩
  rw [isValidCardNumber]
  simp only [luhnCheck_digits (stripNonDigits_all_digit s)]
  split
  · next hcond =>
    simp only [Bool.or_eq_true, decide_eq_true_eq] at hcond
    simp only [Bool.false_eq_true, false_iff]
    omega
  · next hcond =>
    simp only [Bool.or_eq_true, decide_eq_true_eq] at hcond
    simp only [decide_eq_true_eq]
    omega

/-- C4: on an all-digit prefix exactly one digit 0–9 completes a passing
Luhn check; `calculateLuhnCheckDigit` returns exactly that digit (the
first passing one in ascending order), so the defensive `"0"`
fall-through branch is never taken. -/
theorem calculateLuhnCheckDigit_spec (l : List Char) (h : ∀ c ∈ l, c.isDigit = true) :
    (∃! d : Nat, d < 10 ∧ luhnCheck (l ++ [digitToChar d]) = true) ∧
    (∀ d : Nat, d < 10 → luhnCheck (l ++ [digitToChar d]) = true →
      calculateLuhnCheckDigit l = [digitToChar d]) ∧
    ((List.range 10).find? (fun d => luhnCheck (l ++ [digitToChar d]))).isSome = true := by
  set S := luhnSumFrom true (l.reverse.map (fun c => c.toNat - 48)) with hS
  set d0 := (10 - S % 10) % 10 with hd0
  have hd0lt : d0 < 10 := by omega
  have hpass : ∀ d : Nat, d < 10 →
      (luhnCheck (l ++ [digitToChar d]) = true ↔ (d + S) % 10 = 0) := by
    intro d hd
    rw [luhnCheck_append_digit h hd]
    simp only [decide_eq_true_eq]
  have hd0pass : luhnCheck (l ++ [digitToChar d0]) = true := by
    rw [hpass d0 hd0lt]; omega
  have huniq : ∀ d : Nat, d < 10 → luhnCheck (l ++ [digitToChar d]) = true → d = d0 := by
    intro d hd hpd
    have := (hpass d hd).mp hpd
    omega
  refine ⟨⟨d0, ⟨hd0lt, hd0pass⟩, fun d hd => huniq d hd.1 hd.2⟩, ?_, ?_⟩
  · intro d hd hpd
    rw [calculateLuhnCheckDigit]
    cases hfind : (List.range 10).find? (fun e => luhnCheck (l ++ [digitToChar e])) with
    | none =>
      exact absurd hpd (by
        have := List.find?_eq_none.mp hfind d (List.mem_range.mpr hd)
        simpa using this)
    | some e =>
      have hpe : luhnCheck (l ++ [digitToChar e]) = true := by
        have := List.find?_some hfind
        simpa using this
      have helt : e < 10 := List.mem_range.mp (List.mem_of_find?_eq_some hfind)
      have h1 : e = d0 := huniq e helt hpe
      have h2 : d = d0 := huniq d hd hpd
      simp [h1, h2]
  · cases hfind : (List.range 10).find? (fun e => luhnCheck (l ++ [digitToChar e])) with
    | none =>
      exact absurd hd0pass (by
        have := List.find?_eq_none.mp hfind d0 (List.mem_range.mpr hd0lt)
        simpa using this)
    | some e => simp [hfind]

/-- Witness for C4 at the 15-digit prefix `"411111111111111"`: the unique
completing digit is 1. -/
theorem calculateLuhnCheckDigit_spec_witness :
    (∃! d : Nat, d < 10 ∧
      luhnCheck ("411111111111111".toList ++ [digitToChar d]) = true) ∧
    calculateLuhnCheckDigit "411111111111111".toList = ['1'] := by
  have h := calculateLuhnCheckDigit_spec "411111111111111".toList (by decide)
  refine ⟨h.1, ?_⟩
  have := h.2.1 1 (by decide) (by decide)
  simpa using this

/-! ### Generator lemmas -/

theorem randomIntM_0_9_lt (r : Nat) : randomIntM 0 9 r < 10 := by
  simp [randomIntM]
  omega

theorem randomMiddleDigits_length (rand : Nat → Nat) (n : Nat) :
    (randomMiddleDigits rand n).length = n := by
  simp [randomMiddleDigits]

theorem randomMiddleDigits_digits (rand : Nat → Nat) (n : Nat) :
    ∀ c ∈ randomMiddleDigits rand n, c.isDigit = true := by
  intro c hc
  simp only [randomMiddleDigits, List.mem_map] at hc
  obtain ⟨i, _, rfl⟩ := hc
  exact digitToChar_isDigit (randomIntM_0_9_lt _)

/-- `calculateLuhnCheckDigit` on an all-digit prefix yields a single
digit character whose appending passes `luhnCheck`. -/
theorem calculateLuhnCheckDigit_passes {l : List Char} (h : ∀ c ∈ l, c.isDigit = true) :
    luhnCheck (l ++ calculateLuhnCheckDigit l) = true ∧
    ∃ d, d < 10 ∧ calculateLuhnCheckDigit l = [digitToChar d] := by
  set S := luhnSumFrom true (l.reverse.map (fun c => c.toNat - 48)) with hS
  set d0 := (10 - S % 10) % 10 with hd0
  have hd0lt : d0 < 10 := by omega
  have hd0pass : luhnCheck (l ++ [digitToChar d0]) = true := by
    rw [luhnCheck_append_digit h hd0lt]
    simp only [decide_eq_true_eq]
    omega
  rw [calculateLuhnCheckDigit]
  cases hfind : (List.range 10).find? (fun e => luhnCheck (l ++ [digitToChar e])) with
  | none =>
    exact absurd hd0pass (by
      have := List.find?_eq_none.mp hfind d0 (List.mem_range.mpr hd0lt)
      simpa using this)
  | some e =>
    have hpe : luhnCheck (l ++ [digitToChar e]) = true := by
      have := List.find?_some hfind
      simpa using this
    have helt : e < 10 := List.mem_range.mp (List.mem_of_find?_eq_some hfind)
    exact ⟨hpe, e, helt, rfl⟩

theorem string_mk_length (l : List Char) : (String.mk l).length = l.length := rfl

theorem string_mk_toList (l : List Char) : (String.mk l).toList = l := rfl

/-- The resolved body of `generateCardNumber`: for a non-empty prefix
pool of digit strings each shorter than the target length, the output has
exactly the target length, consists of digits, and (when `valid` and the
length is a plausible card length) passes `isValidCardNumber`. -/
theorem genNumberCore_spec (prefixes : List String) (len : Nat) (valid : Bool)
    (rand : Nat → Nat) (hne : prefixes ≠ [])
    (hpre : ∀ p ∈ prefixes, (∀ c ∈ p.toList, c.isDigit = true) ∧ p.length + 1 ≤ len) :
    (genNumberCore prefixes len valid rand).length = len ∧
    (∀ c ∈ (genNumberCore prefixes len valid rand).toList, c.isDigit = true) ∧
    (valid = true → 13 ≤ len → len ≤ 19 →
      isValidCardNumber (genNumberCore prefixes len valid rand) = true) := by
  have hlen0 : 0 < prefixes.length := List.length_pos.mpr hne
  have hidx : randomIntM 0 (prefixes.length - 1) (rand 0) < prefixes.length := by
    have heq : prefixes.length - 1 - 0 + 1 = prefixes.length := by omega
    simp only [randomIntM, Nat.zero_add, heq]
    exact Nat.mod_lt _ hlen0
  have hmem : prefixes.getD (randomIntM 0 (prefixes.length - 1) (rand 0)) "" ∈ prefixes := by
    rw [List.getD_eq_getElem?_getD, List.getElem?_eq_getElem hidx]
    exact List.getElem_mem hidx
  obtain ⟨hdig, hlenle⟩ := hpre _ hmem
  set p := prefixes.getD (randomIntM 0 (prefixes.length - 1) (rand 0)) "" with hp
  have hplen : p.toList.length = p.length := rfl
  set w := p.toList ++ randomMiddleDigits rand (len - p.toList.length - 1) with hw
  have hwdig : ∀ c ∈ w, c.isDigit = true := by
    intro c hc
    rcases List.mem_append.mp hc with hc | hc
    · exact hdig c hc
    · exact randomMiddleDigits_digits _ _ c hc
  have hwlen : w.length = len - 1 := by
    rw [hw, List.length_append, randomMiddleDigits_length, hplen]
    omega
  cases valid with
  | true =>
    obtain ⟨hluhn, d, hdlt, hdeq⟩ := calculateLuhnCheckDigit_passes hwdig
    have hcore : genNumberCore prefixes len true rand =
        String.mk (w ++ calculateLuhnCheckDigit w) := rfl
    rw [hcore]
    have hudig : ∀ c ∈ w ++ calculateLuhnCheckDigit w, c.isDigit = true := by
      intro c hc
      rcases List.mem_append.mp hc with hc | hc
      · exact hwdig c hc
      · rw [hdeq] at hc
        simp only [List.mem_singleton] at hc
        exact hc ▸ digitToChar_isDigit hdlt
    have hulen : (w ++ calculateLuhnCheckDigit w).length = len := by
      rw [List.length_append, hwlen, hdeq]
      simp only [List.length_singleton]
      omega
    refine ⟨by rw [string_mk_length, hulen], by rw [string_mk_toList]; exact hudig, ?_⟩
    intro _ h13 h19
    rw [isValidCardNumber]
    have hstrip : stripNonDigits (String.mk (w ++ calculateLuhnCheckDigit w)) =
        w ++ calculateLuhnCheckDigit w := by
      rw [stripNonDigits, string_mk_toList]
      exact List.filter_eq_self.mpr hudig
    rw [hstrip, hulen]
    have hc1 : ¬(len < 13) := by omega
    have hc2 : ¬(len > 19) := by omega
    simp [hc1, hc2, hluhn]
  | false =>
    have hcore : genNumberCore prefixes len false rand =
        String.mk (w ++ [digitToChar (randomIntM 0 9
          (rand (len - p.toList.length - 1 + 1)))]) := rfl
    rw [hcore]
    have hudig : ∀ c ∈ w ++ [digitToChar (randomIntM 0 9
        (rand (len - p.toList.length - 1 + 1)))], c.isDigit = true := by
      intro c hc
      rcases List.mem_append.mp hc with hc | hc
      · exact hwdig c hc
      · simp only [List.mem_singleton] at hc
        exact hc ▸ digitToChar_isDigit (randomIntM_0_9_lt _)
    refine ⟨?_, by rw [string_mk_toList]; exact hudig, by intro h; exact absurd h (by simp)⟩
    rw [string_mk_length, List.length_append, hwlen]
    simp only [List.length_singleton]
    omega

/-- C2: for each supported card type and every outcome of the random
source, `generateCardNumber` yields an all-digit string of the fixed
length of the type (15 for amex, 16 otherwise), and with `valid = true` the
output passes `isValidCardNumber`. -/
theorem generateCardNumber_spec :
    ∀ t ∈ ["visa", "mastercard", "amex", "discover"], ∀ (valid : Bool) (rand : Nat → Nat),
      (generateCardNumber t valid rand).length = (if t = "amex" then 15 else 16) ∧
      (∀ c ∈ (generateCardNumber t valid rand).toList, c.isDigit = true) ∧
      (valid = true → isValidCardNumber (generateCardNumber t valid rand) = true) := by
  intro t ht valid rand
  fin_cases ht
  · have h := genNumberCore_spec ["4"] 16 valid rand (by decide) (by decide)
    exact ⟨h.1, h.2.1, fun hv => h.2.2 hv (by decide) (by decide)⟩
  · have h := genNumberCore_spec ["51", "52", "53", "54", "55", "2221", "2720"] 16 valid rand
      (by decide) (by decide)
    exact ⟨h.1, h.2.1, fun hv => h.2.2 hv (by decide) (by decide)⟩
  · have h := genNumberCore_spec ["34", "37"] 15 valid rand (by decide) (by decide)
    exact ⟨h.1, h.2.1, fun hv => h.2.2 hv (by decide) (by decide)⟩
  · have h := genNumberCore_spec ["6011", "644", "645", "646", "647", "648", "649", "65"] 16
      valid rand (by decide) (by decide)
    exact ⟨h.1, h.2.1, fun hv => h.2.2 hv (by decide) (by decide)⟩

/-- Witness for C2 at `t = "visa"`, `valid = true` and the constant-zero
oracle. -/
theorem generateCardNumber_spec_witness :
    (generateCardNumber "visa" true (fun _ => 0)).length = 16 ∧
    isValidCardNumber (generateCardNumber "visa" true (fun _ => 0)) = true := by
  have h := generateCardNumber_spec "visa" (by decide) true (fun _ => 0)
  exact ⟨by simpa using h.1, h.2.2 rfl⟩

theorem lookup_none_of_not_mem {β : Type} (table : List (String × β)) (t : String)
    (h : ∀ k ∈ table.map Prod.fst, t ≠ k) : table.lookup t = none := by
  induction table with
  | nil => rfl
  | cons e rest ih =>
    have h1 : t ≠ e.1 := h e.1 (by simp)
    have h2 : ∀ k ∈ rest.map Prod.fst, t ≠ k := fun k hk => h k (by simp [hk])
    have hbeq : (t == e.1) = false := beq_eq_false_iff_ne.mpr h1
    simp [List.lookup, hbeq, ih h2]

/-- C10: a type string outside {visa, mastercard, amex, discover} makes
`generateCardNumber` fall back to the visa prefix pool and length 16, so
the output is a 16-digit string starting with `'4'`; `generateCard`
likewise falls back to a 3-character CVC. -/
theorem generateCardNumber_unknown_type_fallback :
    ∀ t : String, t ∉ ["visa", "mastercard", "amex", "discover"] →
      (∀ (valid : Bool) (rand : Nat → Nat),
        (generateCardNumber t valid rand).length = 16 ∧
        (generateCardNumber t valid rand).toList.head? = some '4' ∧
        (∀ c ∈ (generateCardNumber t valid rand).toList, c.isDigit = true)) ∧
      (∀ (valid : Bool) (randNum randExp randCvc : Nat → Nat) (nowYear : Nat),
        (generateCard (some t) valid randNum randExp randCvc nowYear).cvc.length = 3) := by
  intro t ht
  have hne : ∀ k ∈ ["visa", "mastercard", "amex", "discover"], t ≠ k := by
    intro k hk heq
    exact ht (heq ▸ hk)
  have hpref : CARD_PREFIXES.lookup t = none :=
    lookup_none_of_not_mem _ _ (by simpa [CARD_PREFIXES] using hne)
  have hlen : CARD_LENGTHS.lookup t = none :=
    lookup_none_of_not_mem _ _ (by simpa [CARD_LENGTHS] using hne)
  have hcvc : CVC_LENGTHS.lookup t = none :=
    lookup_none_of_not_mem _ _ (by simpa [CVC_LENGTHS] using hne)
  constructor
  · intro valid rand
    have hgen : generateCardNumber t valid rand = genNumberCore ["4"] 16 valid rand := by
      rw [generateCardNumber, hpref, hlen]
      rfl
    have h := genNumberCore_spec ["4"] 16 valid rand (by decide) (by decide)
    rw [hgen]
    refine ⟨h.1, ?_, h.2.1⟩
    have hidx : randomIntM 0 ((["4"] : List String).length - 1) (rand 0) = 0 := by
      simp [randomIntM]
      omega
    have hcore : genNumberCore ["4"] 16 valid rand =
        (if valid then
          String.mk ('4' :: randomMiddleDigits rand 14 ++
            calculateLuhnCheckDigit ('4' :: randomMiddleDigits rand 14))
        else
          String.mk ('4' :: randomMiddleDigits rand 14 ++
            [digitToChar (randomIntM 0 9 (rand 15))])) := by
      rw [genNumberCore, hidx]
      cases valid <;> rfl
    rw [hcore]
    cases valid <;> simp [string_mk_toList]
  · intro valid randNum randExp randCvc nowYear
    have hcvceq : (generateCard (some t) valid randNum randExp randCvc nowYear).cvc =
        generateCVC ((CVC_LENGTHS.lookup (if t = "" then "visa" else t)).getD 3) randCvc := rfl
    have hcvclen : ∀ n rand0, (generateCVC n rand0).length = n := by
      intro n rand0
      simp [generateCVC, string_mk_length]
    rw [hcvceq, hcvclen]
    by_cases h : t = ""
    · rw [if_pos h]
      rfl
    · rw [if_neg h, hcvc]
      rfl

/-- Witness for C10 at the unknown type `"unknown"`. -/
theorem generateCardNumber_unknown_type_fallback_witness :
    (generateCardNumber "unknown" true (fun _ => 0)).length = 16 ∧
    (generateCardNumber "unknown" true (fun _ => 0)).toList.head? = some '4' ∧
    (generateCard (some "unknown") true (fun _ => 0) (fun _ => 0) (fun _ => 0) 2026).cvc.length = 3 := by
  have h := generateCardNumber_unknown_type_fallback "unknown" (by decide)
  exact ⟨(h.1 true (fun _ => 0)).1, (h.1 true (fun _ => 0)).2.1,
    h.2 true (fun _ => 0) (fun _ => 0) (fun _ => 0) 2026⟩

/-! ### CSV lemmas -/

/-- `mkRow` pairs headers with values positionally; missing trailing
values become the empty string. -/
theorem mkRow_fst (hs vs : List String) : (mkRow hs vs).map Prod.fst = hs := by
  induction hs generalizing vs with
  | nil => rfl
  | cons h rest ih => simp [mkRow, ih]

theorem mkRow_pad (hs vs : List String) (hlt : vs.length ≤ hs.length) :
    (mkRow hs vs).map Prod.snd = vs ++ List.replicate (hs.length - vs.length) "" := by
  induction hs generalizing vs with
  | nil =>
    have : vs = [] := List.length_eq_zero.mp (Nat.le_zero.mp hlt)
    simp [this, mkRow]
  | cons h rest ih =>
    cases vs with
    | nil =>
      simp only [mkRow, List.map_cons, List.headD_nil, List.tail_nil,
        List.length_nil, List.length_cons, Nat.sub_zero, List.nil_append]
      rw [ih [] (by simp)]
      simp [List.replicate_succ]
    | cons v vt =>
      simp only [mkRow, List.map_cons, List.headD_cons, List.tail_cons,
        List.length_cons, List.cons_append]
      rw [ih vt (by simpa using hlt)]
      have hl : rest.length + 1 - (vt.length + 1) = rest.length - vt.length := by omega
      simp only [List.length_cons, hl]

theorem mkRow_zip (hs vs : List String) (hlen : vs.length = hs.length) :
    mkRow hs vs = hs.zip vs := by
  induction hs generalizing vs with
  | nil => rfl
  | cons h rest ih =>
    cases vs with
    | nil => simp at hlen
    | cons v vt =>
      simp only [mkRow, List.headD_cons, List.tail_cons, List.zip_cons_cons]
      rw [ih vt (by simpa using hlen)]

/-- C7: a data line with fewer fields than column names raises no error:
the missing trailing columns are filled with the empty string, and in
particular `parseCSV "a,b,c\n1,2"` (default options) yields one row
`{a:"1", b:"2", c:""}`. -/
theorem parseCSV_short_row_pads (hs vs : List String) (hlt : vs.length ≤ hs.length) :
    (mkRow hs vs).map Prod.fst = hs ∧
    (mkRow hs vs).map Prod.snd = vs ++ List.replicate (hs.length - vs.length) "" ∧
    parseCSV "a,b,c\n1,2" defaultCSVOptions = [[("a", "1"), ("b", "2"), ("c", "")]] := by
  exact ⟨mkRow_fst hs vs, mkRow_pad hs vs hlt, by decide⟩

/-- Witness for C7 at headers `a, b, c` and the two values `1, 2`. -/
theorem parseCSV_short_row_pads_witness :
    (mkRow ["a", "b", "c"] ["1", "2"]).map Prod.snd = ["1", "2", ""] ∧
    parseCSV "a,b,c\n1,2" defaultCSVOptions = [[("a", "1"), ("b", "2"), ("c", "")]] := by
  have h := parseCSV_short_row_pads ["a", "b", "c"] ["1", "2"] (by decide)
  exact ⟨by simpa using h.2.1, h.2.2⟩

/-- C8: the escaping of `stringifyCSV` quotes a field exactly when it contains
the delimiter, a double quote, or a newline character (LF or CR),
doubling embedded quotes, and otherwise leaves it unchanged; serializing
the two `note` rows produces `note\n"has, a comma"\n"has ""quotes"""`. -/
theorem escapeField_spec :
    (∀ (v : List Char) (delim : Char),
      ((∃ inner, escapeField v delim = '"' :: (inner ++ ['"']) ∧ inner = doubleQuotes v) ↔
        (delim ∈ v ∨ '"' ∈ v ∨ '\n' ∈ v ∨ '\r' ∈ v)) ∧
      (delim ∉ v → '"' ∉ v → '\n' ∉ v → '\r' ∉ v → escapeField v delim = v)) ∧
    stringifyCSV [[("note", "has, a comma")], [("note", "has \"quotes\"")]]
      defaultCSVOptions = "note\n\"has, a comma\"\n\"has \"\"quotes\"\"\"" := by
  refine ⟨fun v delim => ⟨⟨?_, ?_⟩, ?_⟩, by decide⟩
  · rintro ⟨inner, heq, -⟩
    by_contra hnone
    push_neg at hnone
    obtain ⟨h1, h2, h3, h4⟩ := hnone
    rw [escapeField, if_neg (by simp [List.contains, h1, h2, h3, h4])] at heq
    exact h2 (heq ▸ List.mem_cons_self ..)
  · intro hsome
    refine ⟨doubleQuotes v, ?_, rfl⟩
    rw [escapeField, if_pos]
    simp [List.contains]
    tauto
  · intro h1 h2 h3 h4
    rw [escapeField, if_neg (by simp [List.contains, h1, h2, h3, h4])]

/-- C6 (amended): `isValidCardNumber`, `getCardType` and
`formatCardNumber` are total and degrade to `false` / `null` /
best-effort output, but `maskCardNumber` throws (a `RangeError` from
`'*'.repeat` with a negative count, modelled as `none`) precisely when
the input holds fewer digits than `visibleDigits`. -/
theorem maskCardNumber_throw_characterization :
    (∀ (s : String) (v : Nat),
      (maskCardNumber s v).isSome = true ↔ v ≤ (stripNonDigits s).length) ∧
    isValidCardNumber "not a card" = false ∧
    getCardType "9999999999999999" = none ∧
    formatCardNumber "12" none = "12" := by
  refine ⟨fun s v => ?_, by decide, by decide, by decide⟩
  rw [maskCardNumber]
  split
  · next h => simp; omega
  · next h => simp; omega

/-- Counterexample to C6 as stated: masking `"123"` with the default
`visibleDigits = 4` does not return normally (the source throws a
`RangeError` from `'*'.repeat(-1)`). -/
theorem maskCardNumber_counterexample : maskCardNumber "123" 4 = none := by decide

theorem string_append_cons_head (pre rest : String) (c : Char) (h : pre.data = c :: pre.data.tail) :
    (pre ++ rest).data.head? = some c := by
  rw [String.data_append]
  rw [h]
  rfl

theorem mem_exactRowErrors_head {s : String} {o : CSVValidationOptions} {n : Nat}
    (h : s ∈ exactRowErrors o n) : s.data.head? = some 'E' := by
  rw [exactRowErrors] at h
  split at h
  · split at h
    · simp only [List.mem_singleton] at h
      subst h
      apply string_append_cons_head
      rfl
    · simp at h
  · simp at h

theorem mem_minRowErrors_head {s : String} {o : CSVValidationOptions} {n : Nat}
    (h : s ∈ minRowErrors o n) : s.data.head? = some 'E' := by
  rw [minRowErrors] at h
  split at h
  · split at h
    · simp only [List.mem_singleton] at h
      subst h
      apply string_append_cons_head
      rfl
    · simp at h
  · simp at h

theorem mem_maxRowErrors_head {s : String} {o : CSVValidationOptions} {n : Nat}
    (h : s ∈ maxRowErrors o n) : s.data.head? = some 'E' := by
  rw [maxRowErrors] at h
  split at h
  · split at h
    · simp only [List.mem_singleton] at h
      subst h
      apply string_append_cons_head
      rfl
    · simp at h
  · simp at h

theorem mem_requiredFieldErrors_head {s : String} {fields : List String}
    {data : List (List (String × String))}
    (h : s ∈ requiredFieldErrors fields data) : s.data.head? = some 'R' := by
  rw [requiredFieldErrors] at h
  simp only [List.mem_flatten, List.mem_map] at h
  obtain ⟨ll, ⟨p, _, rfl⟩, hmem⟩ := h
  simp only [List.mem_map] at hmem
  obtain ⟨f, _, rfl⟩ := hmem
  apply string_append_cons_head
  rfl

theorem missingColumnErrors_eq {o : CSVValidationOptions} {cols : List String}
    (h : o.expectedColumns = some cols) (columns : List String) :
    missingColumnErrors o columns =
      (if (cols.filter (fun y => !columns.contains y)).isEmpty then []
       else ["Missing columns: " ++ String.intercalate ", "
         (cols.filter (fun y => !columns.contains y))]) := by
  rw [missingColumnErrors, h]
  show (if (!(cols.filter (fun y => !columns.contains y)).isEmpty) = true
      then ["Missing columns: " ++ String.intercalate ", "
        (cols.filter (fun y => !columns.contains y))] else []) = _
  by_cases he : (cols.filter (fun y => !columns.contains y)).isEmpty = true
  · rw [if_neg (by rw [he]; decide), if_pos he]
  · have he2 : (cols.filter (fun y => !columns.contains y)).isEmpty = false := by
      simpa using he
    rw [if_pos (by rw [he2]; decide), if_neg he]

/-- C9: `validateCSV` accumulates all violations, returns `isValid` true
exactly when the error list is empty, always reports the parsed row count
and observed columns, reports a missing-columns error exactly when some
expected column is absent, and converts a read failure into the single
fixed error result instead of an exception. -/
theorem validateCSV_spec :
    (∀ (msg : String) (o : CSVValidationOptions),
      validateCSV (.error msg) o =
        { isValid := false, errors := ["Failed to read CSV: " ++ msg],
          rowCount := 0, columns := [] }) ∧
    (∀ (r : Except String String) (o : CSVValidationOptions),
      (validateCSV r o).isValid = true ↔ (validateCSV r o).errors = []) ∧
    (∀ (c : String) (o : CSVValidationOptions),
      (validateCSV (.ok c) o).rowCount = (parseCSV c o.toCSVOptions).length ∧
      (validateCSV (.ok c) o).columns = csvColumnsOf (parseCSV c o.toCSVOptions)) ∧
    (∀ (c : String) (o : CSVValidationOptions) (cols : List String),
      o.expectedColumns = some cols →
        (("Missing columns: " ++ String.intercalate ", "
            (cols.filter (fun x => !(validateCSV (.ok c) o).columns.contains x))) ∈
          (validateCSV (.ok c) o).errors ↔
         cols.filter (fun x => !(validateCSV (.ok c) o).columns.contains x) ≠ [])) ∧
    validateCSV (.ok "a,b\n1,")
      { expectedColumns := some ["name", "id"], expectedRowCount := some 3,
        requiredFields := some ["b"] } =
      { isValid := false,
        errors := ["Missing columns: name, id", "Expected 3 rows, got 1",
          "Row 1: Missing required field \x27b\x27"],
        rowCount := 1, columns := ["a", "b"] } := by
  refine ⟨fun msg o => rfl, ?_, fun c o => ⟨rfl, rfl⟩, ?_, by decide⟩
  · intro r o
    cases r with
    | error msg => simp [validateCSV]
    | ok c =>
      have hval : (validateCSV (.ok c) o).isValid =
          ((validateCSV (.ok c) o).errors.length == 0) := rfl
      rw [hval, beq_iff_eq, List.length_eq_zero]
  · intro c o cols hcols
    have hcolumns : (validateCSV (.ok c) o).columns =
        csvColumnsOf (parseCSV c o.toCSVOptions) := rfl
    have herrors : (validateCSV (.ok c) o).errors =
        missingColumnErrors o (csvColumnsOf (parseCSV c o.toCSVOptions)) ++
        exactRowErrors o (parseCSV c o.toCSVOptions).length ++
        minRowErrors o (parseCSV c o.toCSVOptions).length ++
        maxRowErrors o (parseCSV c o.toCSVOptions).length ++
        (match o.requiredFields with
          | some fields => requiredFieldErrors fields (parseCSV c o.toCSVOptions)
          | none => []) := rfl
    rw [hcolumns, herrors]
    set columns := csvColumnsOf (parseCSV c o.toCSVOptions) with hc
    set missing := cols.filter (fun x => !columns.contains x) with hm
    set msg := "Missing columns: " ++ String.intercalate ", " missing with hmsg
    have hmsghead : msg.data.head? = some 'M' := by
      rw [hmsg]
      apply string_append_cons_head
      rfl
    have hnotrest : msg ∉ exactRowErrors o (parseCSV c o.toCSVOptions).length ++
        minRowErrors o (parseCSV c o.toCSVOptions).length ++
        maxRowErrors o (parseCSV c o.toCSVOptions).length ++
        (match o.requiredFields with
          | some fields => requiredFieldErrors fields (parseCSV c o.toCSVOptions)
          | none => []) := by
      intro hmem
      rcases List.mem_append.mp hmem with hmem | hmem
      rcases List.mem_append.mp hmem with hmem | hmem
      rcases List.mem_append.mp hmem with hmem | hmem
      · rw [mem_exactRowErrors_head hmem] at hmsghead
        simp at hmsghead
      · rw [mem_minRowErrors_head hmem] at hmsghead
        simp at hmsghead
      · rw [mem_maxRowErrors_head hmem] at hmsghead
        simp at hmsghead
      · rcases ho : o.requiredFields with _ | fields
        · rw [ho] at hmem
          simp at hmem
        · rw [ho] at hmem
          rw [mem_requiredFieldErrors_head hmem] at hmsghead
          simp at hmsghead
    constructor
    · intro hmem
      simp only [List.append_assoc, List.mem_append] at hmem hnotrest
      rcases hmem with hmem | hmem
      · rw [missingColumnErrors_eq hcols columns] at hmem
        by_cases hne : missing.isEmpty
        · rw [if_pos (hm ▸ hne)] at hmem
          simp at hmem
        · intro hcontra
          rw [hcontra] at hne
          simp at hne
      · exact absurd hmem (by tauto)
    · intro hne
      simp only [List.append_assoc, List.mem_append]
      left
      rw [missingColumnErrors_eq hcols columns]
      rw [if_neg (fun hisempty => hne (hm ▸ by simpa using hisempty))]
      exact List.mem_singleton.mpr rfl

/-- Witness for the missing-columns clause of C9 at a concrete table and
option set. -/
theorem validateCSV_spec_witness :
    ("Missing columns: " ++ String.intercalate ", "
        ((["name"] : List String).filter (fun x =>
          !(validateCSV (.ok "a,b\n1,2") { expectedColumns := some ["name"] }).columns.contains x))) ∈
      (validateCSV (.ok "a,b\n1,2") { expectedColumns := some ["name"] }).errors ↔
    (["name"] : List String).filter (fun x =>
      !(validateCSV (.ok "a,b\n1,2") { expectedColumns := some ["name"] }).columns.contains x) ≠ [] := by
  exact validateCSV_spec.2.2.2.1 "a,b\n1,2" { expectedColumns := some ["name"] } ["name"] rfl

/-! ### Character accounting in `parseLine` (C5) -/

theorem mem_dropWhile_of_not {p : Char → Bool} {x : Char} {l : List Char}
    (hx : x ∈ l) (hpx : ¬p x = true) : x ∈ l.dropWhile p := by
  have hsplit := List.takeWhile_append_dropWhile p l
  rw [← hsplit] at hx
  rcases List.mem_append.mp hx with h | h
  · exact absurd (List.mem_takeWhile_imp h) hpx
  · exact h

/-- Trimming removes only whitespace characters: any non-whitespace
character of `l` survives `jsTrim`. -/
theorem mem_jsTrim_of_not_ws {x : Char} {l : List Char}
    (hx : x ∈ l) (hpx : ¬isJsWhitespace x = true) : x ∈ jsTrim l := by
  rw [jsTrim]
  rw [List.mem_reverse]
  apply mem_dropWhile_of_not _ hpx
  rw [List.mem_reverse]
  exact mem_dropWhile_of_not hx hpx

/-- Every character fed to the `parseLine` state machine is the
delimiter, a quote, whitespace, or ends up in one of the produced
fields; this also covers characters already sitting in the accumulator. -/
theorem parseLineGo_chars (delim : Char) :
    ∀ (n : Nat) (l : List Char), l.length ≤ n → ∀ (state : Bool) (cur : List Char) (x : Char),
      (x ∈ cur ∨ x ∈ l) →
      x = delim ∨ x = '"' ∨ isJsWhitespace x = true ∨
        ∃ f ∈ parseLineGo delim l state cur, x ∈ f.toList := by
  intro n
  induction n with
  | zero =>
    intro l hl state cur x hx
    have : l = [] := List.length_eq_zero.mp (Nat.le_zero.mp hl)
    subst this
    rcases hx with hx | hx
    · by_cases hws : isJsWhitespace x = true
      · exact Or.inr (Or.inr (Or.inl hws))
      · refine Or.inr (Or.inr (Or.inr ⟨String.mk (jsTrim cur), ?_, ?_⟩))
        · cases state <;> exact List.mem_singleton.mpr rfl
        · exact mem_jsTrim_of_not_ws hx hws
    · simp at hx
  | succ m ih =>
    intro l hl state cur x hx
    cases l with
    | nil =>
      rcases hx with hx | hx
      · by_cases hws : isJsWhitespace x = true
        · exact Or.inr (Or.inr (Or.inl hws))
        · refine Or.inr (Or.inr (Or.inr ⟨String.mk (jsTrim cur), ?_, ?_⟩))
          · cases state <;> exact List.mem_singleton.mpr rfl
          · exact mem_jsTrim_of_not_ws hx hws
      · simp at hx
    | cons c rest =>
      have hrest : rest.length ≤ m := by
        simp only [List.length_cons] at hl
        omega
      have hx' : x ∈ cur ∨ x = c ∨ x ∈ rest := by
        rcases hx with hx | hx
        · exact Or.inl hx
        · rcases List.mem_cons.mp hx with hx | hx
          · exact Or.inr (Or.inl hx)
          · exact Or.inr (Or.inr hx)
      cases state with
      | true =>
        by_cases hc : c = '"'
        · subst hc
          cases rest with
          | nil =>
            rcases hx' with hx' | hx' | hx'
            · by_cases hws : isJsWhitespace x = true
              · exact Or.inr (Or.inr (Or.inl hws))
              · refine Or.inr (Or.inr (Or.inr ⟨String.mk (jsTrim cur), ?_, ?_⟩))
                · exact List.mem_singleton.mpr rfl
                · exact mem_jsTrim_of_not_ws hx' hws
            · exact Or.inr (Or.inl hx')
            · simp at hx'
          | cons c2 rest2 =>
            by_cases hc2 : c2 = '"'
            · subst hc2
              have hout : parseLineGo delim ('"' :: '"' :: rest2) true cur =
                  parseLineGo delim rest2 true (cur ++ ['"']) := by
                simp [parseLineGo]
              rw [hout]
              rcases hx' with hx' | hx' | hx'
              · exact ih rest2 (by simp at hrest; omega) true (cur ++ ['"']) x
                  (Or.inl (List.mem_append.mpr (Or.inl hx')))
              · exact Or.inr (Or.inl hx')
              · rcases List.mem_cons.mp hx' with hx' | hx'
                · exact Or.inr (Or.inl hx')
                · exact ih rest2 (by simp at hrest; omega) true (cur ++ ['"']) x
                    (Or.inr hx')
            · have hout : parseLineGo delim ('"' :: c2 :: rest2) true cur =
                  parseLineGo delim (c2 :: rest2) false cur := by
                simp [parseLineGo, hc2]
              rw [hout]
              rcases hx' with hx' | hx' | hx'
              · exact ih (c2 :: rest2) hrest false cur x (Or.inl hx')
              · exact Or.inr (Or.inl hx')
              · exact ih (c2 :: rest2) hrest false cur x (Or.inr hx')
        · have hout : parseLineGo delim (c :: rest) true cur =
              parseLineGo delim rest true (cur ++ [c]) := by
            rw [parseLineGo.eq_def]
            simp [hc]
          rw [hout]
          rcases hx' with hx' | hx' | hx'
          · exact ih rest hrest true (cur ++ [c]) x (Or.inl (List.mem_append.mpr (Or.inl hx')))
          · exact ih rest hrest true (cur ++ [c]) x
              (Or.inl (List.mem_append.mpr (Or.inr (by simp [hx']))))
          · exact ih rest hrest true (cur ++ [c]) x (Or.inr hx')
      | false =>
        by_cases hc : c = '"'
        · subst hc
          have hout : parseLineGo delim ('"' :: rest) false cur =
              parseLineGo delim rest true cur := by
            simp [parseLineGo]
          rw [hout]
          rcases hx' with hx' | hx' | hx'
          · exact ih rest hrest true cur x (Or.inl hx')
          · exact Or.inr (Or.inl hx')
          · exact ih rest hrest true cur x (Or.inr hx')
        · by_cases hd : c = delim
          · have hcq : ¬delim = '"' := hd ▸ hc
            have hout : parseLineGo delim (c :: rest) false cur =
                String.mk (jsTrim cur) :: parseLineGo delim rest false [] := by
              rw [hd]
              simp [parseLineGo, hcq]
            rw [hout]
            rcases hx' with hx' | hx' | hx'
            · by_cases hws : isJsWhitespace x = true
              · exact Or.inr (Or.inr (Or.inl hws))
              · exact Or.inr (Or.inr (Or.inr ⟨String.mk (jsTrim cur),
                  List.mem_cons_self .., mem_jsTrim_of_not_ws hx' hws⟩))
            · exact Or.inl (hx'.trans hd)
            · rcases ih rest hrest false [] x (Or.inr hx') with h | h | h | ⟨f, hf, hxf⟩
              · exact Or.inl h
              · exact Or.inr (Or.inl h)
              · exact Or.inr (Or.inr (Or.inl h))
              · exact Or.inr (Or.inr (Or.inr ⟨f, List.mem_cons_of_mem _ hf, hxf⟩))
          · have hout : parseLineGo delim (c :: rest) false cur =
                parseLineGo delim rest false (cur ++ [c]) := by
              simp [parseLineGo, hc, hd]
            rw [hout]
            rcases hx' with hx' | hx' | hx'
            · exact ih rest hrest false (cur ++ [c]) x (Or.inl (List.mem_append.mpr (Or.inl hx')))
            · exact ih rest hrest false (cur ++ [c]) x
                (Or.inl (List.mem_append.mpr (Or.inr (by simp [hx']))))
            · exact ih rest hrest false (cur ++ [c]) x (Or.inr hx')

/-- Every field value (up to the header count) appears as a cell of the
row `mkRow` builds. -/
theorem mkRow_mem_snd (hs vs : List String) (f : String) (hf : f ∈ vs)
    (hlen : vs.length ≤ hs.length) : ∃ p ∈ mkRow hs vs, p.2 = f := by
  induction hs generalizing vs with
  | nil =>
    have : vs = [] := List.length_eq_zero.mp (Nat.le_zero.mp hlen)
    subst this
    simp at hf
  | cons h rest ih =>
    cases vs with
    | nil => simp at hf
    | cons v vt =>
      rcases List.mem_cons.mp hf with hf | hf
      · exact ⟨(h, v), List.mem_cons_self .., hf.symm⟩
      · obtain ⟨p, hp, hpf⟩ := ih vt hf (by simpa using Nat.le_of_succ_le_succ (by simpa using hlen))
        exact ⟨p, List.mem_cons_of_mem _ (by simpa using hp), hpf⟩

/-- C5 (amended): `parseCSV` never raises, and for a data line with at
most as many fields as column names every character is either the
delimiter, a double quote consumed as quoting structure, a whitespace
character (which field trimming may remove), or appears in some field of
the resulting row; fields beyond the column count are dropped entirely,
so the original claim fails there. -/
theorem parseCSV_char_accounting :
    ∀ (content : String) (i : Nat) (line : List Char) (row : List (String × String)),
      (csvDataLines content defaultCSVOptions)[i]? = some line →
      (parseCSV content defaultCSVOptions)[i]? = some row →
      (parseLineGo ',' line false []).length ≤ (csvHeaders content defaultCSVOptions).length →
      ∀ x ∈ line, x = ',' ∨ x = '"' ∨ isJsWhitespace x = true ∨
        ∃ p ∈ row, x ∈ p.2.toList := by
  intro content i line row hline hrow hcount x hx
  have hdelim : defaultCSVOptions.delimiter = ',' := rfl
  have hrow2 : row = mkRow (csvHeaders content defaultCSVOptions)
      (parseLineGo ',' line false []) := by
    rw [parseCSV] at hrow
    rw [List.getElem?_map, hline, hdelim] at hrow
    exact (Option.some.injEq _ _ ▸ hrow).symm
  rcases parseLineGo_chars ',' line.length line (Nat.le_refl _) false [] x (Or.inr hx) with
    h | h | h | ⟨f, hf, hxf⟩
  · exact Or.inl h
  · exact Or.inr (Or.inl h)
  · exact Or.inr (Or.inr (Or.inl h))
  · obtain ⟨p, hp, hpf⟩ := mkRow_mem_snd (csvHeaders content defaultCSVOptions)
      (parseLineGo ',' line false []) f hf hcount
    exact Or.inr (Or.inr (Or.inr ⟨p, hrow2 ▸ hp, hpf ▸ hxf⟩))

/-- Witness for the amended statement of C5 on the content `"a,b\n1,2"`, first
data line, character `'1'`. -/
theorem parseCSV_char_accounting_witness :
    '1' = ',' ∨ '1' = '"' ∨ isJsWhitespace '1' = true ∨
      ∃ p ∈ [("a", "1"), ("b", "2")], '1' ∈ (Prod.snd p).toList := by
  exact parseCSV_char_accounting "a,b\n1,2" 0 ['1', ',', '2'] [("a", "1"), ("b", "2")]
    (by decide) (by decide) (by decide) '1' (by decide)

/-- Counterexample to C5 as stated: in `"a,b\n1,2,3"` the data line has
three fields but only two column names; the character `'3'` occurs in the
input yet in no field of the resulting row — it is silently dropped. -/
theorem parseCSV_data_loss_counterexample :
    parseCSV "a,b\n1,2,3" defaultCSVOptions = [[("a", "1"), ("b", "2")]] ∧
    '3' ∈ "a,b\n1,2,3".toList ∧
    ∀ row ∈ parseCSV "a,b\n1,2,3" defaultCSVOptions, ∀ p ∈ row, '3' ∉ (Prod.snd p).toList := by
  refine ⟨by decide, by decide, ?_⟩
  decide

/-! ### Round-trip lemmas (C1) -/

/-- A cell value that the codec can round-trip: stable under JavaScript
trimming and free of line terminators. -/
def GoodCell (l : List Char) : Prop :=
  jsTrim l = l ∧ '\n' ∉ l ∧ '\r' ∉ l

instance (l : List Char) : Decidable (GoodCell l) :=
  inferInstanceAs (Decidable (_ ∧ _ ∧ _))

/-- Scanning a quote-free, delimiter-free run in the unquoted state just
accumulates it. -/
theorem parseLineGo_scan_unquoted (delim : Char) (v : List Char)
    (hd : delim ∉ v) (hq : '"' ∉ v) (rest cur : List Char) :
    parseLineGo delim (v ++ rest) false cur = parseLineGo delim rest false (cur ++ v) := by
  induction v generalizing cur with
  | nil => simp
  | cons c t ih =>
    have hc : ¬c = '"' := fun h => hq (by simp [h])
    have hcd : ¬c = delim := fun h => hd (by simp [h])
    have step : parseLineGo delim (c :: (t ++ rest)) false cur =
        parseLineGo delim (t ++ rest) false (cur ++ [c]) := by
      rw [parseLineGo.eq_def]
      simp [hc, hcd]
    rw [List.cons_append, step,
      ih (fun h => hd (List.mem_cons_of_mem _ h)) (fun h => hq (List.mem_cons_of_mem _ h))]
    simp

/-- Scanning the quote-doubled body of a field in the quoted state, up to
and including the closing quote, accumulates the original value and
returns to the unquoted state — provided the closing quote is not
immediately followed by another quote (in our use the next character is
the delimiter or the end of line). -/
theorem parseLineGo_scan_quoted (delim : Char) (v : List Char) (rest cur : List Char)
    (hrest : rest.head? ≠ some '"') :
    parseLineGo delim (doubleQuotes v ++ '"' :: rest) true cur =
      parseLineGo delim rest false (cur ++ v) := by
  induction v generalizing cur with
  | nil =>
    cases rest with
    | nil =>
      have h0 : doubleQuotes ([] : List Char) ++ '"' :: ([] : List Char) = ['"'] := rfl
      rw [h0, parseLineGo.eq_def]
      simp [parseLineGo]
    | cons r rs =>
      have hr : ¬r = '"' := by
        intro h
        exact hrest (by simp [h])
      have h0 : doubleQuotes ([] : List Char) ++ '"' :: r :: rs = '"' :: r :: rs := rfl
      rw [h0, parseLineGo.eq_def]
      simp [hr]
  | cons c t ih =>
    by_cases hc : c = '"'
    · subst hc
      have hdq : doubleQuotes ('"' :: t) = '"' :: '"' :: doubleQuotes t := by
        simp [doubleQuotes]
      rw [hdq, List.cons_append, List.cons_append]
      have step : parseLineGo delim ('"' :: '"' :: (doubleQuotes t ++ '"' :: rest)) true cur =
          parseLineGo delim (doubleQuotes t ++ '"' :: rest) true (cur ++ ['"']) := by
        rw [parseLineGo.eq_def]
        simp
      rw [step, ih (cur ++ ['"'])]
      simp
    · have hdq : doubleQuotes (c :: t) = c :: doubleQuotes t := by
        simp [doubleQuotes, hc]
      rw [hdq, List.cons_append]
      have step : parseLineGo delim (c :: (doubleQuotes t ++ '"' :: rest)) true cur =
          parseLineGo delim (doubleQuotes t ++ '"' :: rest) true (cur ++ [c]) := by
        rw [parseLineGo.eq_def]
        simp [hc]
      rw [step, ih (cur ++ [c])]
      simp

theorem goodCell_needsQuoting (v : List Char) (hv : GoodCell v) :
    (v.contains ',' || v.contains '"' || v.contains '\n' || v.contains '\r') =
      (v.contains ',' || v.contains '"') := by
  obtain ⟨-, hn, hr⟩ := hv
  have h1 : v.contains '\n' = false := by
    simp [List.contains, hn]
  have h2 : v.contains '\r' = false := by
    simp [List.contains, hr]
  rw [h1, h2]
  simp

/-- Parsing an escaped good cell followed by the end of the line yields
exactly that cell. -/
theorem parseLineGo_escaped_last (v : List Char) (hv : GoodCell v) :
    parseLineGo ',' (escapeField v ',') false [] = [String.mk v] := by
  rw [escapeField]
  simp only [goodCell_needsQuoting v hv]
  by_cases hq : (v.contains ',' || v.contains '"') = true
  · rw [if_pos hq]
    have step : parseLineGo ',' ('"' :: (doubleQuotes v ++ ['"'])) false [] =
        parseLineGo ',' (doubleQuotes v ++ ['"']) true [] := by
      rw [parseLineGo.eq_def]
      simp
    rw [step]
    have : (doubleQuotes v ++ ['"'] : List Char) = doubleQuotes v ++ '"' :: [] := rfl
    rw [this, parseLineGo_scan_quoted ',' v [] [] (by simp)]
    rw [parseLineGo.eq_def]
    simp [hv.1]
  · rw [if_neg hq]
    simp only [Bool.or_eq_true, not_or, List.contains, Bool.not_eq_true] at hq
    have hd : ',' ∉ v := by
      intro h
      have := List.elem_eq_true_of_mem h
      rw [hq.1] at this
      exact Bool.false_ne_true this
    have hq2 : '"' ∉ v := by
      intro h
      have := List.elem_eq_true_of_mem h
      rw [hq.2] at this
      exact Bool.false_ne_true this
    have : v = v ++ ([] : List Char) := by simp
    rw [this, parseLineGo_scan_unquoted ',' v hd hq2 [] []]
    rw [parseLineGo.eq_def]
    simp [hv.1]

/-- Parsing an escaped good cell followed by a delimiter pushes exactly
that cell and continues. -/
theorem parseLineGo_escaped_delim (v : List Char) (hv : GoodCell v) (more : List Char) :
    parseLineGo ',' (escapeField v ',' ++ ',' :: more) false [] =
      String.mk v :: parseLineGo ',' more false [] := by
  rw [escapeField]
  simp only [goodCell_needsQuoting v hv]
  by_cases hq : (v.contains ',' || v.contains '"') = true
  · rw [if_pos hq]
    have step : parseLineGo ',' ('"' :: (doubleQuotes v ++ ['"']) ++ ',' :: more) false [] =
        parseLineGo ',' (doubleQuotes v ++ '"' :: ',' :: more) true [] := by
      rw [parseLineGo.eq_def]
      simp
    rw [step, parseLineGo_scan_quoted ',' v (',' :: more) [] (by simp)]
    rw [parseLineGo.eq_def]
    simp [hv.1]
  · rw [if_neg hq]
    simp only [Bool.or_eq_true, not_or, List.contains, Bool.not_eq_true] at hq
    have hd : ',' ∉ v := by
      intro h
      have := List.elem_eq_true_of_mem h
      rw [hq.1] at this
      exact Bool.false_ne_true this
    have hq2 : '"' ∉ v := by
      intro h
      have := List.elem_eq_true_of_mem h
      rw [hq.2] at this
      exact Bool.false_ne_true this
    rw [parseLineGo_scan_unquoted ',' v hd hq2 (',' :: more) []]
    rw [parseLineGo.eq_def]
    simp [hv.1]

/-- Parsing a whole serialized line of good cells recovers the cells. -/
theorem parseLineGo_join (vs : List String) (hne : vs ≠ [])
    (hvs : ∀ s ∈ vs, GoodCell s.toList) :
    parseLineGo ',' (joinSep [','] (vs.map (fun s => escapeField s.toList ','))) false [] = vs := by
  induction vs with
  | nil => exact absurd rfl hne
  | cons s t ih =>
    cases t with
    | nil =>
      have hgood := hvs s (List.mem_cons_self ..)
      simp only [List.map_cons, List.map_nil, joinSep]
      rw [parseLineGo_escaped_last s.toList hgood]
      rfl
    | cons s2 t2 =>
      have hgood := hvs s (List.mem_cons_self ..)
      have hjoin : joinSep [','] ((s :: s2 :: t2).map (fun u => escapeField u.toList ',')) =
          escapeField s.toList ',' ++ ',' ::
            joinSep [','] ((s2 :: t2).map (fun u => escapeField u.toList ',')) := by
        simp only [List.map_cons, joinSep]
        simp
      rw [hjoin, parseLineGo_escaped_delim s.toList hgood]
      rw [ih (by simp) (fun u hu => hvs u (List.mem_cons_of_mem _ hu))]
      rfl

/-- Splitting passes over a terminator-free run, accumulating it. -/
theorem splitLinesGo_skip (l : List Char) (hn : '\n' ∉ l) (hr : '\r' ∉ l)
    (rest cur : List Char) :
    splitLinesGo (l ++ rest) cur = splitLinesGo rest (cur ++ l) := by
  induction l generalizing cur with
  | nil => simp
  | cons c t ih =>
    have hc1 : ¬c = '\n' := fun h => hn (by simp [h])
    have hc2 : ¬c = '\r' := fun h => hr (by simp [h])
    have step : splitLinesGo (c :: (t ++ rest)) cur = splitLinesGo (t ++ rest) (cur ++ [c]) := by
      rw [splitLinesGo.eq_def]
      simp [hc1, hc2]
    rw [List.cons_append, step,
      ih (fun h => hn (List.mem_cons_of_mem _ h)) (fun h => hr (List.mem_cons_of_mem _ h))]
    simp

/-- Splitting the LF-join of terminator-free lines recovers the lines. -/
theorem splitLinesGo_join (ls : List (List Char)) (hne : ls ≠ [])
    (hls : ∀ l ∈ ls, '\n' ∉ l ∧ '\r' ∉ l) :
    splitLinesGo (joinSep ['\n'] ls) [] = ls := by
  induction ls with
  | nil => exact absurd rfl hne
  | cons l t ih =>
    obtain ⟨hn, hr⟩ := hls l (List.mem_cons_self ..)
    cases t with
    | nil =>
      have h0 : joinSep ['\n'] [l] = l ++ [] := by simp [joinSep]
      rw [h0, splitLinesGo_skip l hn hr [] []]
      simp [splitLinesGo]
    | cons l2 t2 =>
      have hjoin : joinSep ['\n'] (l :: l2 :: t2) =
          l ++ '\n' :: joinSep ['\n'] (l2 :: t2) := by
        show l ++ ['\n'] ++ joinSep ['\n'] (l2 :: t2) = _
        simp
      rw [hjoin, splitLinesGo_skip l hn hr _ []]
      have step : splitLinesGo ('\n' :: joinSep ['\n'] (l2 :: t2)) ([] ++ l) =
          ([] ++ l) :: splitLinesGo (joinSep ['\n'] (l2 :: t2)) [] := by
        rw [splitLinesGo.eq_def]
        simp
      rw [step, ih (by simp) (fun u hu => hls u (List.mem_cons_of_mem _ hu))]
      simp

theorem mem_doubleQuotes {x : Char} {v : List Char} (h : x ∈ doubleQuotes v) :
    x = '"' ∨ x ∈ v := by
  induction v with
  | nil => simp [doubleQuotes] at h
  | cons c t ih =>
    rw [doubleQuotes] at h
    by_cases hc : c = '"'
    · rw [if_pos hc] at h
      rcases List.mem_cons.mp h with h | h
      · exact Or.inl h
      · rcases List.mem_cons.mp h with h | h
        · exact Or.inl h
        · rcases ih h with h | h
          · exact Or.inl h
          · exact Or.inr (List.mem_cons_of_mem _ h)
    · rw [if_neg hc] at h
      rcases List.mem_cons.mp h with h | h
      · exact Or.inr (by simp [h])
      · rcases ih h with h | h
        · exact Or.inl h
        · exact Or.inr (List.mem_cons_of_mem _ h)

theorem mem_escapeField {x : Char} {v : List Char} {delim : Char}
    (h : x ∈ escapeField v delim) : x = '"' ∨ x ∈ v := by
  rw [escapeField] at h
  by_cases hq : (v.contains delim || v.contains '"' || v.contains '\n' ||
      v.contains '\r') = true
  · rw [if_pos hq] at h
    rcases List.mem_cons.mp h with h | h
    · exact Or.inl h
    · rcases List.mem_append.mp h with h | h
      · exact mem_doubleQuotes h
      · exact Or.inl (by simpa using h)
  · rw [if_neg hq] at h
    exact Or.inr h

theorem mem_joinSep {x : Char} {sep : List Char} {ls : List (List Char)}
    (h : x ∈ joinSep sep ls) : x ∈ sep ∨ ∃ l ∈ ls, x ∈ l := by
  induction ls with
  | nil => simp [joinSep] at h
  | cons l t ih =>
    cases t with
    | nil =>
      exact Or.inr ⟨l, List.mem_cons_self .., by simpa [joinSep] using h⟩
    | cons l2 t2 =>
      rw [joinSep] at h
      rcases List.mem_append.mp h with h | h
      · rcases List.mem_append.mp h with h | h
        · exact Or.inr ⟨l, List.mem_cons_self .., h⟩
        · exact Or.inl h
      · rcases ih h with h | ⟨u, hu, hxu⟩
        · exact Or.inl h
        · exact Or.inr ⟨u, List.mem_cons_of_mem _ hu, hxu⟩

/-- A serialized line of good cells contains no line terminator. -/
theorem serialized_line_no_terminator (vs : List String)
    (hvs : ∀ s ∈ vs, GoodCell s.toList) :
    '\n' ∉ joinSep [','] (vs.map (fun s => escapeField s.toList ',')) ∧
    '\r' ∉ joinSep [','] (vs.map (fun s => escapeField s.toList ',')) := by
  constructor
  · intro h
    rcases mem_joinSep h with h | ⟨l, hl, hxl⟩
    · simp at h
    · obtain ⟨s, hs, rfl⟩ := List.mem_map.mp hl
      rcases mem_escapeField hxl with h | h
      · simp at h
      · exact (hvs s hs).2.1 h
  · intro h
    rcases mem_joinSep h with h | ⟨l, hl, hxl⟩
    · simp at h
    · obtain ⟨s, hs, rfl⟩ := List.mem_map.mp hl
      rcases mem_escapeField hxl with h | h
      · simp at h
      · exact (hvs s hs).2.2 h

/-- A list with a non-whitespace member does not trim to empty. -/
theorem jsTrim_ne_nil_of_mem {x : Char} {l : List Char} (hx : x ∈ l)
    (hws : ¬isJsWhitespace x = true) : jsTrim l ≠ [] :=
  List.ne_nil_of_mem (mem_jsTrim_of_not_ws hx hws)

/-- A nonempty trim-stable list starts with (hence contains) a
non-whitespace character. -/
theorem goodCell_has_non_ws {l : List Char} (ht : jsTrim l = l) (hne : l ≠ []) :
    ∃ c ∈ l, ¬isJsWhitespace c = true := by
  by_contra hall
  push_neg at hall
  have hdrop : l.dropWhile isJsWhitespace = [] := List.dropWhile_eq_nil_iff.mpr hall
  have htrim : jsTrim l = [] := by
    rw [jsTrim, hdrop]
    simp
  rw [ht] at htrim
  exact hne htrim

/-- A serialized line of good cells survives the `skipEmptyLines`
filter: if there are at least two cells, or the single cell is nonempty,
the line does not trim to empty. -/
theorem serialized_line_nonempty (vs : List String)
    (hvs : ∀ s ∈ vs, GoodCell s.toList) (hne : vs ≠ [])
    (hsingle : vs.length = 1 → ∀ s ∈ vs, s ≠ "") :
    jsTrim (joinSep [','] (vs.map (fun s => escapeField s.toList ','))) ≠ [] := by
  match vs, hne with
  | [s], _ =>
    have hgood := hvs s (List.mem_cons_self ..)
    have hline : joinSep [','] ([s].map (fun u => escapeField u.toList ',')) =
        escapeField s.toList ',' := by
      simp [joinSep]
    rw [hline, escapeField]
    by_cases hq : (s.toList.contains ',' || s.toList.contains '"' ||
        s.toList.contains '\n' || s.toList.contains '\r') = true
    · rw [if_pos hq]
      exact jsTrim_ne_nil_of_mem (List.mem_cons_self ..) (by decide)
    · rw [if_neg hq]
      have hsne : s ≠ "" := hsingle rfl s (List.mem_cons_self ..)
      have hlne : s.toList ≠ [] := by
        intro h
        apply hsne
        have h2 : s = String.mk s.toList := rfl
        rw [h2, h]
      obtain ⟨c, hc, hcws⟩ := goodCell_has_non_ws hgood.1 hlne
      exact jsTrim_ne_nil_of_mem hc hcws
  | s :: s2 :: t, _ =>
    have hmem : ',' ∈ joinSep [','] ((s :: s2 :: t).map (fun u => escapeField u.toList ',')) := by
      simp only [List.map_cons, joinSep]
      exact List.mem_append.mpr (Or.inl (List.mem_append.mpr (Or.inr (by simp))))
    exact jsTrim_ne_nil_of_mem hmem (by decide)

/-- Projecting a row onto its own (duplicate-free) key list via
`row[header]` recovers its values in order. -/
theorem lookup_proj (row : List (String × String)) (hnd : (row.map Prod.fst).Nodup) :
    (row.map Prod.fst).map (fun h => (row.lookup h).getD "") = row.map Prod.snd := by
  induction row with
  | nil => rfl
  | cons p t ih =>
    obtain ⟨k, v⟩ := p
    simp only [List.map_cons] at hnd ⊢
    have hnotin : k ∉ t.map Prod.fst := (List.nodup_cons.mp hnd).1
    have hhead : (List.lookup k ((k, v) :: t)).getD "" = v := by
      simp [List.lookup]
    rw [hhead]
    congr 1
    have htail : ∀ h ∈ t.map Prod.fst,
        (List.lookup h ((k, v) :: t)).getD "" = (List.lookup h t).getD "" := by
      intro h hh
      have hne : (h == k) = false := by
        simp only [beq_eq_false_iff_ne, ne_eq]
        intro heq
        exact hnotin (heq ▸ hh)
      simp [List.lookup, hne]
    rw [List.map_congr_left htail]
    exact ih (List.nodup_cons.mp hnd).2

/-- Zipping the keys of a row with its values recovers the row. -/
theorem zip_fst_snd_eq (row : List (String × String)) :
    (row.map Prod.fst).zip (row.map Prod.snd) = row := by
  induction row with
  | nil => rfl
  | cons p t ih => simp [ih]

/-- C1 (amended): with default options, parsing the serialization of a
table whose rows all share the same duplicate-free nonempty key list
reproduces the table exactly, provided every column name and cell value
is trim-stable and free of line terminators, and — when the table has a
single column — no name or cell is empty.  (Cells may freely contain the
delimiter and double quotes.) -/
theorem parseCSV_stringifyCSV_roundtrip (t : List (List (String × String)))
    (hs : List String)
    (hkeys : ∀ row ∈ t, row.map Prod.fst = hs)
    (hnd : hs.Nodup) (hhne : hs ≠ [])
    (hgoodh : ∀ h ∈ hs, GoodCell h.toList)
    (hgoodc : ∀ row ∈ t, ∀ p ∈ row, GoodCell (Prod.snd p).toList)
    (hsingleh : hs.length = 1 → ∀ h ∈ hs, h ≠ "")
    (hsinglec : hs.length = 1 → ∀ row ∈ t, ∀ p ∈ row, Prod.snd p ≠ "") :
    parseCSV (stringifyCSV t defaultCSVOptions) defaultCSVOptions = t := by
  cases t with
  | nil => decide
  | cons r0 trest =>
    set t := r0 :: trest with ht
    have hkeys0 : r0.map Prod.fst = hs := hkeys r0 (List.mem_cons_self ..)
    -- The serialized content, with the header keys rewritten to `hs`.
    have hstr : stringifyCSV t defaultCSVOptions =
        String.mk (joinSep ['\n']
          (joinSep [','] ((r0.map Prod.fst).map (fun h => escapeField h.toList ',')) ::
           t.map (fun row => joinSep [','] ((r0.map Prod.fst).map (fun h =>
             escapeField ((row.lookup h).getD "").toList ','))))) := rfl
    rw [hkeys0] at hstr
    -- Each row line is the join of the escaped values of its row.
    have hrowline : ∀ row ∈ t,
        joinSep [','] (hs.map (fun h => escapeField ((row.lookup h).getD "").toList ',')) =
        joinSep [','] ((row.map Prod.snd).map (fun s => escapeField s.toList ',')) := by
      intro row hrow
      congr 1
      rw [← hkeys row hrow]
      have hcomp : (row.map Prod.fst).map
          (fun h => escapeField ((row.lookup h).getD "").toList ',') =
          ((row.map Prod.fst).map (fun h => (row.lookup h).getD "")).map
            (fun s => escapeField s.toList ',') :=
        (List.map_map (fun (s : String) => escapeField s.toList ',')
          (fun (h : String) => (row.lookup h).getD "") (row.map Prod.fst)).symm
      rw [hcomp, lookup_proj row ((hkeys row hrow).symm ▸ hnd)]
    have hlines : t.map (fun row => joinSep [','] (hs.map (fun h =>
        escapeField ((row.lookup h).getD "").toList ','))) =
        t.map (fun row => joinSep [','] ((row.map Prod.snd).map
          (fun s => escapeField s.toList ','))) :=
      List.map_congr_left hrowline
    rw [hlines] at hstr
    set headerLine := joinSep [','] (hs.map (fun h => escapeField h.toList ',')) with hhl
    set rowLines := t.map (fun row => joinSep [','] ((row.map Prod.snd).map
      (fun s => escapeField s.toList ','))) with hrl
    -- Facts about rows as cell lists.
    have hrowgood : ∀ row ∈ t, ∀ s ∈ row.map Prod.snd, GoodCell s.toList := by
      intro row hrow s hsmem
      obtain ⟨p, hp, rfl⟩ := List.mem_map.mp hsmem
      exact hgoodc row hrow p hp
    have hrowlen : ∀ row ∈ t, (row.map Prod.snd).length = hs.length := by
      intro row hrow
      rw [List.length_map, ← hkeys row hrow, List.length_map]
    have hrowne : ∀ row ∈ t, row.map Prod.snd ≠ [] := by
      intro row hrow h
      apply hhne
      have := hrowlen row hrow
      rw [h] at this
      exact List.length_eq_zero.mp this.symm
    -- The line list splits back.
    have hsplit : splitLinesGo (stringifyCSV t defaultCSVOptions).toList [] =
        headerLine :: rowLines := by
      rw [hstr]
      have htl : (String.mk (joinSep ['\n'] (headerLine :: rowLines))).toList =
          joinSep ['\n'] (headerLine :: rowLines) := rfl
      rw [htl]
      apply splitLinesGo_join _ (by simp)
      intro l hl
      rcases List.mem_cons.mp hl with hl | hl
      · subst hl
        exact serialized_line_no_terminator hs hgoodh
      · rw [hrl] at hl
        obtain ⟨row, hrow, rfl⟩ := List.mem_map.mp hl
        exact serialized_line_no_terminator (row.map Prod.snd) (hrowgood row hrow)
    -- Every line survives the skip-empty-lines filter.
    have hkeep : ∀ l ∈ headerLine :: rowLines, (!(jsTrim l).isEmpty) = true := by
      intro l hl
      have hne2 : jsTrim l ≠ [] := by
        rcases List.mem_cons.mp hl with hl | hl
        · subst hl
          exact serialized_line_nonempty hs hgoodh hhne hsingleh
        · rw [hrl] at hl
          obtain ⟨row, hrow, rfl⟩ := List.mem_map.mp hl
          apply serialized_line_nonempty (row.map Prod.snd) (hrowgood row hrow)
            (hrowne row hrow)
          intro hlen1 s hsmem
          obtain ⟨p, hp, rfl⟩ := List.mem_map.mp hsmem
          exact hsinglec (by rw [← hrowlen row hrow]; exact hlen1) row hrow p hp
      simp only [Bool.not_eq_true']
      exact List.isEmpty_eq_false.mpr hne2
    have hfl : csvFilteredLines (stringifyCSV t defaultCSVOptions) defaultCSVOptions =
        headerLine :: rowLines := by
      rw [csvFilteredLines]
      have hopt : defaultCSVOptions.skipEmptyLines = true := rfl
      rw [hopt, if_pos rfl, hsplit]
      exact List.filter_eq_self.mpr hkeep
    -- Headers parse back to `hs`.
    have hheaders : csvHeaders (stringifyCSV t defaultCSVOptions) defaultCSVOptions = hs := by
      rw [csvHeaders, hfl]
      have hopt : defaultCSVOptions.hasHeaders = true := rfl
      rw [hopt]
      simp only [if_true]
      have hd : defaultCSVOptions.delimiter = ',' := rfl
      rw [hd, hhl]
      exact parseLineGo_join hs hhne hgoodh
    have hdata : csvDataLines (stringifyCSV t defaultCSVOptions) defaultCSVOptions =
        rowLines := by
      rw [csvDataLines, hfl]
      rfl
    -- Assemble.
    rw [parseCSV, hdata, hheaders, hrl]
    have hd : defaultCSVOptions.delimiter = ',' := rfl
    rw [hd, List.map_map]
    have hfinal : ∀ row ∈ t,
        (mkRow hs (parseLineGo ',' (joinSep [','] ((row.map Prod.snd).map
          (fun s => escapeField s.toList ','))) false [])) = row := by
      intro row hrow
      rw [parseLineGo_join (row.map Prod.snd) (hrowne row hrow) (hrowgood row hrow)]
      rw [mkRow_zip hs (row.map Prod.snd) (hrowlen row hrow)]
      rw [← hkeys row hrow]
      exact zip_fst_snd_eq row
    calc t.map ((fun l => mkRow hs (parseLineGo ',' l false [])) ∘
          (fun row => joinSep [','] ((row.map Prod.snd).map (fun s => escapeField s.toList ','))))
        = t.map (fun row => row) := List.map_congr_left (fun row hrow => hfinal row hrow)
      _ = t := by simp

/-- Witness for the amended round-trip of C1 at a single-column,
single-row table. -/
theorem parseCSV_stringifyCSV_roundtrip_witness :
    parseCSV (stringifyCSV [[("a", "x,\"y")]] defaultCSVOptions) defaultCSVOptions =
      [[("a", "x,\"y")]] := by
  apply parseCSV_stringifyCSV_roundtrip [[("a", "x,\"y")]] ["a"]
  · intro row hrow
    simp only [List.mem_singleton] at hrow
    subst hrow
    rfl
  · decide
  · decide
  · intro h hh
    simp only [List.mem_singleton] at hh
    subst hh
    decide
  · intro row hrow p hp
    simp only [List.mem_singleton] at hrow
    subst hrow
    simp only [List.mem_singleton] at hp
    subst hp
    decide
  · intro _ h hh
    simp only [List.mem_singleton] at hh
    subst hh
    decide
  · intro _ row hrow p hp
    simp only [List.mem_singleton] at hrow
    subst hrow
    simp only [List.mem_singleton] at hp
    subst hp
    decide

/-- Counterexample to C1 as stated: a cell containing a newline is
quoted by `stringifyCSV`, but `parseCSV` splits the content into
physical lines before quote handling, so the row comes back as two
rows. -/
theorem parseCSV_stringifyCSV_counterexample :
    stringifyCSV [[("a", "x\ny")]] defaultCSVOptions = "a\n\"x\ny\"" ∧
    parseCSV (stringifyCSV [[("a", "x\ny")]] defaultCSVOptions) defaultCSVOptions =
      [[("a", "x")], [("a", "y")]] ∧
    parseCSV (stringifyCSV [[("a", "x\ny")]] defaultCSVOptions) defaultCSVOptions ≠
      [[("a", "x\ny")]] := by
  refine ⟨by decide, by decide, by decide⟩

end PlaywrightUtils
